import Mathlib

/-!
Shallow embedding of the DOCX chapter-detection and citation-processing
pipeline (`app.py` and the step scripts).  Documents are modelled as lists
of paragraphs; a paragraph is a list of formatting runs plus a style name;
a run carries text and the font attributes the code reads or writes.
Python dictionaries keyed by reference number are modelled as association
lists with in-place-update insertion (last write wins, first-insertion
order preserved), and Python's unbounded integers are `Nat`/`Int`.
-/

/-- A formatting run: the smallest styled text span inside a paragraph.
Tri-state font attributes (`True`/`False`/`None` in python-docx) are
`Option Bool`; nullable sizes and names are `Option`. -/
structure Run where
  text : String
  fontName : Option String := none
  fontSize : Option Nat := none
  bold : Option Bool := none
  italic : Option Bool := none
  underline : Option Bool := none
  superscript : Option Bool := none
  deriving Repr, DecidableEq

/-- A paragraph: an ordered list of runs plus a paragraph style name. -/
structure Paragraph where
  runs : List Run
  style : String := "Normal"
  deriving Repr, DecidableEq

/-- `paragraph.text` in python-docx: the concatenation of the run texts. -/
def Paragraph.text (p : Paragraph) : String :=
  String.join (p.runs.map Run.text)

/-- Reference dictionary: number to full reference text, modelled as an
association list with Python-dict insertion semantics. -/
abbrev RefDict := List (Nat × String)

/-- `d[k] = v` on a Python dict: replace in place if the key exists,
otherwise append. -/
def dictInsert (d : RefDict) (k : Nat) (v : String) : RefDict :=
  match d with
  | [] => [(k, v)]
  | (k', v') :: rest =>
      if k' = k then (k, v) :: rest else (k', v') :: dictInsert rest k v

/-- `d.get(k)` on a Python dict. -/
def dictLookup (d : RefDict) (k : Nat) : Option String :=
  match d with
  | [] => none
  | (k', v') :: rest => if k' = k then some v' else dictLookup rest k

/-- `k in d` on a Python dict. -/
def dictMem (d : RefDict) (k : Nat) : Bool :=
  (dictLookup d k).isSome

/-- `d[k]` when the key is known to be present (defaults to `""`). -/
def dictGet (d : RefDict) (k : Nat) : String :=
  (dictLookup d k).getD ""

/-- `d.update(d2)`: insert every pair of `d2` in order. -/
def dictUpdate (d d2 : RefDict) : RefDict :=
  d2.foldl (fun acc kv => dictInsert acc kv.1 kv.2) d

/-- `max(d.keys())`; only used by the code after a non-emptiness guard. -/
def dictMaxKey (d : RefDict) : Nat :=
  (d.map Prod.fst).foldl Nat.max 0

/-- `s.strip()` on a character list: drop whitespace from both ends. -/
def trimList (cs : List Char) : List Char :=
  ((cs.dropWhile Char.isWhitespace).reverse.dropWhile Char.isWhitespace).reverse

/-- `s.strip()` (kernel-reducible replacement for `String.trim`). -/
def strTrim (s : String) : String :=
  String.mk (trimList s.data)

/-- `u.startswith(w)` on character lists. -/
def startsWithChars : List Char → List Char → Bool
  | _, [] => true
  | [], _ :: _ => false
  | c :: cs, d :: ds => c = d && startsWithChars cs ds

/-- Numeric value of a list of decimal digit characters (`int(...)`). -/
def natOfDigits (cs : List Char) : Nat :=
  cs.foldl (fun n c => n * 10 + (c.toNat - 48)) 0

/-- `int(s)` for a token of decimal digits: `some` iff the token is
non-empty and all digits. -/
def parseDigits (cs : List Char) : Option Nat :=
  if cs ≠ [] ∧ cs.all Char.isDigit then some (natOfDigits cs) else none

/-- Helper for `re.findall(r'\d+', s)`: accumulate the current digit group
(in reverse) while scanning. -/
def digitGroupsAux : List Char → List Char → List Nat
  | [], acc => if acc.isEmpty then [] else [natOfDigits acc.reverse]
  | c :: rest, acc =>
      if c.isDigit then digitGroupsAux rest (c :: acc)
      else if acc.isEmpty then digitGroupsAux rest []
      else natOfDigits acc.reverse :: digitGroupsAux rest []

/-- `[int(x) for x in re.findall(r'\d+', s)]`: the numeric values of the
maximal digit groups of `s`. -/
def extractNums (s : String) : List Nat :=
  digitGroupsAux s.data []

/-- The alternatives of `HEADING_RE`. -/
def headingWords : List String :=
  ["notes", "note", "references", "reference", "endnotes", "endnote",
   "sources", "source", "bibliography", "citations", "citation"]

/-- Matcher for the regex tail `\s*:?\s*$`. -/
def sepMatch (cs : List Char) : Bool :=
  let cs1 := cs.dropWhile Char.isWhitespace
  let cs2 := match cs1 with
    | ':' :: rest => rest
    | _ => cs1
  cs2.all Char.isWhitespace

/-- `HEADING_RE.match(text)` on already-stripped text: some alternative
word is a prefix and the remainder matches `\s*:?\s*$` (case-insensitive). -/
def headingMatch (t : String) : Bool :=
  let u := t.data.map Char.toLower
  headingWords.any (fun w => startsWithChars u w.data && sepMatch (u.drop w.data.length))

/-- `is_notes_heading(p)`: the stripped paragraph text is non-empty and
matches `HEADING_RE`. -/
def isNotesHeading (p : Paragraph) : Bool :=
  let t := strTrim p.text
  !t.data.isEmpty && headingMatch t

/-- Loop body of `find_section_end`: walk the suffix carrying the absolute
index and the consecutive-blank counter. -/
def fseAux : List Paragraph → Nat → Nat → Nat
  | [], i, _ => i
  | p :: rest, i, blanks =>
      if isNotesHeading p then i
      else if (trimList p.text.data).isEmpty then
        if blanks + 1 ≥ 2 then i else fseAux rest (i + 1) (blanks + 1)
      else fseAux rest (i + 1) 0

/-- `find_section_end(paragraphs, start)` from `app.py`: scan from `start`,
stop at another notes heading or at the second of two consecutive blank
paragraphs, else run to the end (when `start` is past the end the loop body
never runs and the length is returned). -/
def find_section_end (paras : List Paragraph) (start : Nat) : Nat :=
  if start ≤ paras.length then fseAux (paras.drop start) start 0 else paras.length

/-- `enumerate(l)` starting at `i`. -/
def enumFrom' : Nat → List Paragraph → List (Nat × Paragraph)
  | _, [] => []
  | i, p :: rest => (i, p) :: enumFrom' (i + 1) rest

/-- `find_notes_sections(paragraphs)`: every notes-heading index `i` yields
the triple `(i, i+1, find_section_end(paragraphs, i+1))`. -/
def find_notes_sections (paras : List Paragraph) : List (Nat × Nat × Nat) :=
  (enumFrom' 0 paras).filterMap (fun ip =>
    if isNotesHeading ip.2 then
      some (ip.1, ip.1 + 1, find_section_end paras (ip.1 + 1))
    else none)

/-- The leading-number reference patterns of `parse_references_advanced`,
applied to stripped single-line text: maximal digit prefix, then `.`/`)`/
`]`, whitespace, or a dash/colon separator, then `\s*(.+)$`.  Returns the
captured number and remainder text on a match. -/
def refPatternMatch (text : String) : Option (Nat × String) :=
  let cs := text.data
  let ds := cs.takeWhile Char.isDigit
  let rest := cs.dropWhile Char.isDigit
  if ds.isEmpty then none
  else
    let n := natOfDigits ds
    match rest with
    | [] => none
    | c :: tl =>
        if c = '.' ∨ c = ')' ∨ c = ']' then
          let g2 := tl.dropWhile Char.isWhitespace
          if g2.isEmpty then none else some (n, String.mk g2)
        else if c.isWhitespace then
          let g2 := tl.dropWhile Char.isWhitespace
          if g2.isEmpty then none else some (n, String.mk g2)
        else if c = '-' ∨ c = '–' ∨ c = '—' ∨ c = ':' then
          let g2 := tl.dropWhile Char.isWhitespace
          if g2.isEmpty then none else some (n, String.mk g2)
        else none

/-- Loop of `parse_references_advanced` over the stripped texts of a
section's paragraph range, carrying the open reference. -/
def parseRefsLoop : List String → Option Nat → String → RefDict → RefDict
  | [], cur, curText, refs =>
      match cur with
      | some m =>
          if (trimList curText.data).isEmpty then refs
          else dictInsert refs m (strTrim curText)
      | none => refs
  | t :: rest, cur, curText, refs =>
      if t.data.isEmpty then parseRefsLoop rest cur curText refs
      else
        match refPatternMatch t with
        | some (n, g2) =>
            let refs' :=
              match cur with
              | some m =>
                  if (trimList curText.data).isEmpty then refs
                  else dictInsert refs m (strTrim curText)
              | none => refs
            parseRefsLoop rest (some n) g2 refs'
        | none =>
            match cur with
            | some _ => parseRefsLoop rest cur (curText ++ " " ++ t) refs
            | none => parseRefsLoop rest cur curText refs

/-- `parse_references_advanced(paragraphs, start, end)`: parse the numbered
references in the paragraph range `[start, end)` (clamped to the list). -/
def parse_references_advanced (paras : List Paragraph) (start stop : Nat) : RefDict :=
  parseRefsLoop (((paras.drop start).take (stop - start)).map (fun p => strTrim p.text)) none "" []

/-- One token of `expand_number_range` after splitting on `[,\s]+` (dashes
already normalised to `-`): either a `a-b` range, kept only when
`1 <= a <= b <= 999` and `b - a < 50`, or a plain number. -/
def expandPart (part : List Char) : List Nat :=
  if part.contains '-' then
    let s := part.takeWhile (fun c => c ≠ '-')
    let e := (part.dropWhile (fun c => c ≠ '-')).drop 1
    match parseDigits s, parseDigits e with
    | some a, some b =>
        if 1 ≤ a ∧ a ≤ b ∧ b ≤ 999 ∧ b - a < 50 then
          (List.range (b + 1 - a)).map (a + ·)
        else []
    | _, _ => []
  else
    match parseDigits part with
    | some n => [n]
    | none => []

/-- `re.split(r'[,\s]+', s)` keeping only non-empty tokens: the maximal
groups of non-separator characters. -/
def splitTokensAux : List Char → List Char → List (List Char)
  | [], acc => if acc.isEmpty then [] else [acc.reverse]
  | c :: rest, acc =>
      if c = ',' ∨ c.isWhitespace then
        if acc.isEmpty then splitTokensAux rest []
        else acc.reverse :: splitTokensAux rest []
      else splitTokensAux rest (c :: acc)

/-- Insert a number into a strictly-sorted list, dropping it if present. -/
def insertDedup (n : Nat) : List Nat → List Nat
  | [] => [n]
  | m :: rest =>
      if n < m then n :: m :: rest
      else if n = m then m :: rest
      else m :: insertDedup n rest

/-- `sorted(set(l))`: the strictly ascending enumeration of the distinct
elements of `l`. -/
def sortedDedup (l : List Nat) : List Nat :=
  l.foldr insertDedup []

/-- `expand_number_range(num_str)`: normalise en/em dashes, split on
commas/whitespace, expand each token, and return `sorted(set(nums))`. -/
def expand_number_range (numStr : String) : List Nat :=
  let normalised := numStr.data.map (fun c => if c = '–' ∨ c = '—' then '-' else c)
  let nums := (splitTokensAux normalised []).flatMap expandPart
  sortedDedup nums

/-- `format_reference(num, text, style)`. -/
def format_reference (num : Nat) (text style : String) : String :=
  if startsWithChars style.data ['—'] then " — " ++ toString num ++ ". " ++ text
  else if startsWithChars style.data ['['] then " [" ++ toString num ++ ". " ++ text ++ "]"
  else " (" ++ text ++ ")"

/-- The superscript-run pass of `replace_citations_in_paragraph`: a run
with a truthy superscript flag whose extracted numbers are non-empty, all
within `[1, max_ref_num]`, all present in the map and all below 1000 is
rewritten (superscript cleared, text replaced); any other run is returned
unchanged.  The second component is the contribution to `changes`. -/
def processSupRun (refs : RefDict) (maxRef : Nat) (style : String) (r : Run) : Run × Nat :=
  if r.superscript = some true then
    if !(extractNums r.text).isEmpty &&
        (extractNums r.text).all (fun n => decide (1 ≤ n) && decide (n ≤ maxRef) && dictMem refs n) &&
        !(extractNums r.text).any (fun n => decide (1000 ≤ n)) then
      ({ r with
          superscript := none,
          text := String.intercalate "; "
            ((extractNums r.text).map
              (fun n => strTrim (format_reference n (dictGet refs n) style))) }, 1)
    else (r, 0)
  else (r, 0)

/-- Character class `[0-9,\-–—\s]` of the bracket/paren citation pattern. -/
def markerChar (c : Char) : Bool :=
  c.isDigit || c = ',' || c = '-' || c = '–' || c = '—' || c.isWhitespace

/-- `replace_square(match)`: expand the inner token string; if the result
is non-empty, all within `[1, max_ref_num]`, in the map and below 1000,
render the joined replacement, else give back `match.group(0)`. -/
def replaceMarker (openC closeC : Char) (refs : RefDict) (maxRef : Nat)
    (style : String) (inner : List Char) : List Char :=
  let nums := expand_number_range (String.mk inner)
  if !nums.isEmpty &&
      nums.all (fun n => decide (1 ≤ n) && decide (n ≤ maxRef) && dictMem refs n) &&
      !nums.any (fun n => decide (1000 ≤ n)) then
    (String.intercalate "; " (nums.map (fun n => format_reference n (dictGet refs n) style))).data
  else openC :: (inner ++ [closeC])

/-- Left-to-right non-overlapping `re.sub` scan for the pattern
`open([0-9,\-–—\s]+)close`: at an opening delimiter whose maximal run of
class characters is non-empty and followed by the closing delimiter, emit
the replacement and continue after the match; otherwise advance one
character.  Fuel bounds the recursion; the wrapper supplies the input
length, which every step strictly exceeds. -/
def subScanAux (openC closeC : Char) (refs : RefDict) (maxRef : Nat)
    (style : String) : Nat → List Char → List Char
  | 0, cs => cs
  | _ + 1, [] => []
  | fuel + 1, c :: rest =>
      if c = openC then
        let inner := rest.takeWhile markerChar
        let rest2 := rest.dropWhile markerChar
        match rest2 with
        | d :: after =>
            if !inner.isEmpty && d = closeC then
              replaceMarker openC closeC refs maxRef style inner ++
                subScanAux openC closeC refs maxRef style fuel after
            else c :: subScanAux openC closeC refs maxRef style fuel rest
        | [] => c :: subScanAux openC closeC refs maxRef style fuel rest
      else c :: subScanAux openC closeC refs maxRef style fuel rest

/-- `re.sub(r'open([0-9,\-–—\s]+)close', replace_square, s)`. -/
def subPattern (openC closeC : Char) (refs : RefDict) (maxRef : Nat)
    (style : String) (s : String) : String :=
  String.mk (subScanAux openC closeC refs maxRef style s.data.length s.data)

/-- The run-collapse after a text-level rewrite: clear every run's text and
write the whole new text into the first run (appending a fresh run when the
paragraph had none). -/
def collapseRuns (p : Paragraph) (newText : String) : Paragraph :=
  match p.runs with
  | [] => { p with runs := [{ text := newText }] }
  | r0 :: rest =>
      { p with runs := { r0 with text := newText } :: rest.map (fun r => { r with text := "" }) }

/-- `replace_citations_in_paragraph(paragraph, all_refs, style, allow_paren)`:
superscript pass over the runs, then the bracket (and optionally paren)
text pass with run collapse on change.  Returns the updated paragraph and
the `changes` count. -/
def replace_citations_in_paragraph (p : Paragraph) (refs : RefDict)
    (style : String) (allowParen : Bool) : Paragraph × Nat :=
  if refs.isEmpty then (p, 0)
  else
    let maxRef := dictMaxKey refs
    let supResults := p.runs.map (processSupRun refs maxRef style)
    let p1 : Paragraph := { p with runs := supResults.map Prod.fst }
    let changes1 := (supResults.map Prod.snd).foldl (· + ·) 0
    let original := p1.text
    let t1 := subPattern '[' ']' refs maxRef style original
    let t2 := if allowParen then subPattern '(' ')' refs maxRef style t1 else t1
    if t2 ≠ original then (collapseRuns p1 t2, changes1 + 1) else (p1, changes1)

/-- `process_single_chapter(doc, style, allow_paren, delete_notes_sections)`:
find the notes sections, merge their parsed reference maps, rewrite the
body paragraphs outside the section ranges, and optionally delete the
section paragraphs.  Returns the updated paragraph list, the reference
count and the replacement count. -/
def process_single_chapter (paras : List Paragraph) (style : String)
    (allowParen deleteNotes : Bool) : List Paragraph × Nat × Nat :=
  let sections := find_notes_sections paras
  if sections.isEmpty then (paras, 0, 0)
  else
    let allRefs := sections.foldl
      (fun acc s => dictUpdate acc (parse_references_advanced paras s.2.1 s.2.2)) []
    if allRefs.isEmpty then (paras, 0, 0)
    else
      let inNotes := fun i => sections.any (fun s => decide (s.1 ≤ i) && decide (i < s.2.2))
      let processed := (enumFrom' 0 paras).map (fun ip =>
        if !inNotes ip.1 && !ip.2.text.data.isEmpty && !(trimList ip.2.text.data).isEmpty then
          replace_citations_in_paragraph ip.2 allRefs style allowParen
        else (ip.2, 0))
      let outParas := processed.map Prod.fst
      let total := (processed.map Prod.snd).foldl (· + ·) 0
      let final :=
        if deleteNotes then
          (enumFrom' 0 outParas).filterMap (fun ip => if inNotes ip.1 then none else some ip.2)
        else outParas
      (final, allRefs.length, total)

/-- `\w` of Python's `re` restricted to ASCII word characters. -/
def isWordChar (c : Char) : Bool :=
  c.isAlphanum || c = '_'

/-- `re.sub(r'\s+', '_', kept)`: each maximal whitespace run becomes one
underscore; the flag records whether the previous character was
whitespace. -/
def collapseWsAux : List Char → Bool → List Char
  | [], _ => []
  | c :: rest, inWs =>
      if c.isWhitespace then
        (if inWs then [] else ['_']) ++ collapseWsAux rest true
      else c :: collapseWsAux rest false

/-- The title slug of `create_chapter_boundaries`: strip characters outside
`[\w\s-]`, collapse whitespace runs to `_`, truncate to `maxLen`. -/
def slugTitle (maxLen : Nat) (text : String) : String :=
  let kept := text.data.filter (fun c => isWordChar c || c.isWhitespace || c = '-')
  String.mk ((collapseWsAux kept false).take maxLen)

/-- Stable insertion of a selected chapter into a list sorted by index. -/
def insertByIdx (x : Nat × String) : List (Nat × String) → List (Nat × String)
  | [] => [x]
  | y :: rest => if x.1 ≤ y.1 then x :: y :: rest else y :: insertByIdx x rest

/-- `selected_chapters.sort(key=lambda x: x['index'])`: stable sort by
paragraph index. -/
def sortByIdx (l : List (Nat × String)) : List (Nat × String) :=
  l.foldr insertByIdx []

/-- Boundary-building loop of `create_chapter_boundaries`: each selected
chapter spans from its index to one before the next selected index (or
`total - 1` for the last); the title is the slug or a `Chapter_<n>`
placeholder.  Python's signed arithmetic is kept by using `Int` ends. -/
def mkBounds (maxLen : Nat) : List (Nat × String) → Nat → Nat → List (Int × Int × String)
  | [], _, _ => []
  | (idx, tx) :: rest, total, i =>
      let e : Int :=
        match rest with
        | (nidx, _) :: _ => (nidx : Int) - 1
        | [] => (total : Int) - 1
      let t0 := slugTitle maxLen tx
      ((idx : Int), e, if t0.data.isEmpty then "Chapter_" ++ toString (i + 1) else t0) ::
        mkBounds maxLen rest total (i + 1)

/-- `create_chapter_boundaries(selected_chapters, total_paragraphs)` from
`app.py` (title truncation 50). -/
def create_chapter_boundaries (selected : List (Nat × String)) (total : Nat) :
    List (Int × Int × String) :=
  if selected.isEmpty then [(0, (total : Int) - 1, "Full_Document")]
  else mkBounds 50 (sortByIdx selected) total 0

/-- Run copy performed by `create_chapter_document`: text plus every font
attribute the loop assigns (name, size, bold, italic, underline,
superscript). -/
def extractCopyRun (r : Run) : Run :=
  { text := r.text, fontName := r.fontName, fontSize := r.fontSize, bold := r.bold,
    italic := r.italic, underline := r.underline, superscript := r.superscript }

/-- `create_chapter_document(original_doc, start_para, end_para)`: copies
of paragraphs `start..min(end, len-1)`, preserving style and run
formatting. -/
def create_chapter_document (doc : List Paragraph) (startPara endPara : Nat) :
    List Paragraph :=
  ((doc.drop startPara).take (endPara + 1 - startPara)).map
    (fun p => { style := p.style, runs := p.runs.map extractCopyRun })

/-- Run copy performed by `rejoin_chapters`: text, name, size, bold,
italic and underline; the fresh run's superscript flag is left at its
`None` default. -/
def rejoinCopyRun (r : Run) : Run :=
  { text := r.text, fontName := r.fontName, fontSize := r.fontSize, bold := r.bold,
    italic := r.italic, underline := r.underline, superscript := none }

/-- `add_page_break()`: an empty separator paragraph between chapters. -/
def pageBreakParagraph : Paragraph :=
  { runs := [], style := "Normal" }

/-- Loop of `rejoin_chapters`, flagging whether this is the first
chapter. -/
def rejoinAux : List (List Paragraph) → Bool → List Paragraph
  | [], _ => []
  | d :: rest, first =>
      (if first then [] else [pageBreakParagraph]) ++
        d.map (fun p => { style := p.style, runs := p.runs.map rejoinCopyRun }) ++
        rejoinAux rest false

/-- `rejoin_chapters(chapter_docs)` from `app.py`. -/
def rejoin_chapters (docs : List (List Paragraph)) : List Paragraph :=
  rejoinAux docs true

/-- A default paragraph for positional lookups. -/
def paraAt (paras : List Paragraph) (i : Nat) : Paragraph :=
  paras.getD i { runs := [], style := "" }

/-- Spec §4.2's "heading style" test: the style name starts with
"heading", case-insensitively. -/
def isHeadingStyle (p : Paragraph) : Bool :=
  startsWithChars (p.style.data.map Char.toLower) "heading".data

/-- Modelled from the spec: the end-of-section rule claimed in §4.2 —
"scanning forward from the first paragraph after the heading, the section
ends at the first of: (a) another section heading, (b) a paragraph whose
style is a heading style and has non-empty text, (c) two consecutive empty
paragraphs", else the end of the sequence.  Stated as the first index at
which a trigger holds; used only to compare the claimed rule with the
implemented `find_section_end`. -/
def find_section_end_claim (paras : List Paragraph) (start : Nat) : Nat :=
  match (List.range' start (paras.length - start)).find? (fun i =>
      isNotesHeading (paraAt paras i) ||
      (isHeadingStyle (paraAt paras i) && !(trimList (paraAt paras i).text.data).isEmpty) ||
      (decide (start < i) && (trimList (paraAt paras i).text.data).isEmpty &&
        (trimList (paraAt paras (i - 1)).text.data).isEmpty)) with
  | some i => i
  | none => paras.length

/-- The end-of-section trigger actually implemented by `find_section_end`:
another notes heading, or the second of two consecutive blank paragraphs
after `start`. -/
def sectionEndTrigger (paras : List Paragraph) (start i : Nat) : Bool :=
  isNotesHeading (paraAt paras i) ||
  (decide (start < i) && (trimList (paraAt paras i).text.data).isEmpty &&
    (trimList (paraAt paras (i - 1)).text.data).isEmpty)

/-- First-index formulation of the implemented end-of-section rule: the
first position at or after `start` where `sectionEndTrigger` holds, else
the length of the sequence. -/
def find_section_end_amended (paras : List Paragraph) (start : Nat) : Nat :=
  match (List.range' start (paras.length - start)).find? (sectionEndTrigger paras start) with
  | some i => i
  | none => paras.length

/-! ### Helper lemmas -/

theorem mem_insertDedup {b n : Nat} : ∀ {l : List Nat},
    b ∈ insertDedup n l ↔ b = n ∨ b ∈ l := by
  intro l
  induction l with
  | nil => simp [insertDedup]
  | cons m rest ih =>
      by_cases h1 : n < m
      · simp [insertDedup, h1]
      · by_cases h2 : n = m
        · subst h2
          have he : insertDedup n (n :: rest) = n :: rest := by
            rw [insertDedup]
            simp
          rw [he, List.mem_cons]
          tauto
        · simp only [insertDedup, if_neg h1, if_neg h2, List.mem_cons, ih]
          tauto

theorem sorted_insertDedup (n : Nat) : ∀ (l : List Nat),
    l.Sorted (· < ·) → (insertDedup n l).Sorted (· < ·) := by
  intro l
  induction l with
  | nil => intro _; simp [insertDedup]
  | cons m rest ih =>
      intro h
      rw [List.sorted_cons] at h
      by_cases h1 : n < m
      · rw [insertDedup]
        simp only [if_pos h1]
        rw [List.sorted_cons]
        constructor
        · intro b hb
          rcases List.mem_cons.mp hb with hb | hb
          · exact hb ▸ h1
          · exact lt_trans h1 (h.1 b hb)
        · rw [List.sorted_cons]
          exact h
      · by_cases h2 : n = m
        · rw [insertDedup]
          simp only [if_neg h1, if_pos h2]
          rw [List.sorted_cons]
          exact h
        · rw [insertDedup]
          simp only [if_neg h1, if_neg h2]
          rw [List.sorted_cons]
          constructor
          · intro b hb
            rcases mem_insertDedup.mp hb with hb | hb
            · subst hb
              omega
            · exact h.1 b hb
          · exact ih h.2

theorem sorted_sortedDedup : ∀ (l : List Nat), (sortedDedup l).Sorted (· < ·) := by
  intro l
  induction l with
  | nil => simp [sortedDedup]
  | cons x xs ih => exact sorted_insertDedup x (sortedDedup xs) ih

theorem mem_enumFrom' : ∀ (k : Nat) (l : List Paragraph) (ip : Nat × Paragraph),
    ip ∈ enumFrom' k l → ip.2 ∈ l := by
  intro k l
  induction l generalizing k with
  | nil => intro ip h; simp [enumFrom'] at h
  | cons p rest ih =>
      intro ip h
      rw [enumFrom'] at h
      rcases List.mem_cons.mp h with h | h
      · subst h; exact List.mem_cons_self _ _
      · exact List.mem_cons_of_mem _ (ih (k + 1) ip h)

theorem get?_enumFrom' : ∀ (l : List Paragraph) (k j : Nat),
    (enumFrom' k l).get? j = (l.get? j).map (fun p => (k + j, p)) := by
  intro l
  induction l with
  | nil => intro k j; simp [enumFrom']
  | cons p rest ih =>
      intro k j
      cases j with
      | zero => simp [enumFrom']
      | succ j =>
          rw [enumFrom']
          simp only [List.get?_cons_succ, ih (k + 1) j]
          cases rest.get? j
          · simp
          · simp
            omega

theorem no_heading_no_sections (paras : List Paragraph)
    (h : ∀ p ∈ paras, isNotesHeading p = false) :
    find_notes_sections paras = [] := by
  rw [find_notes_sections, List.filterMap_eq_nil_iff]
  intro ip hip
  rw [h ip.2 (mem_enumFrom' 0 paras ip hip)]
  rfl

/-! ### Claim theorems -/

/-- C1 counterexample: a superscript run whose extracted number 2020 is
≥ 1000 is nevertheless modified by citation rewriting — the paragraph-level
bracket rewrite of `[2]` collapses the runs and clears the run's text. -/
theorem c1_superscript_year_guard_counterexample :
    (∃ n ∈ extractNums "2020", 1000 ≤ n) ∧
    ((replace_citations_in_paragraph
        { runs := [{ text := "See [2]." }, { text := "2020", superscript := some true }] }
        [(2, "Smith")] "[1. Reference text]" false).1.runs.getD 1 { text := "" })
      ≠ { text := "2020", superscript := some true } := by
  constructor
  · exact ⟨2020, by decide, by decide⟩
  · decide

/-- C1 (amended): in the superscript-marker pass, a run with any extracted
number ≥ 1000 is returned completely unchanged, and a run is rewritten only
if its extracted list is non-empty with every number a key of the map and
below 1000; the later paragraph-level bracket/paren rewrite may still clear
such a run's text when it collapses the paragraph's runs. -/
theorem c1_superscript_year_guard (refs : RefDict) (style : String) (r : Run) :
    ((∃ n ∈ extractNums r.text, 1000 ≤ n) →
        processSupRun refs (dictMaxKey refs) style r = (r, 0)) ∧
    ((processSupRun refs (dictMaxKey refs) style r).1 ≠ r →
        extractNums r.text ≠ [] ∧
        ∀ n ∈ extractNums r.text, dictMem refs n = true ∧ n < 1000) := by
  constructor
  · rintro ⟨n, hn, h1000⟩
    rw [processSupRun]
    by_cases hsup : r.superscript = some true
    · have hany : (extractNums r.text).any (fun n => decide (1000 ≤ n)) = true :=
        List.any_eq_true.mpr ⟨n, hn, by simpa⟩
      simp [hsup, hany]
    · simp [hsup]
  · intro hch
    rw [processSupRun] at hch
    split at hch
    · split at hch
      · rename_i hsup hcond
        simp only [Bool.and_eq_true, Bool.not_eq_true', List.all_eq_true,
          List.any_eq_false, decide_eq_true_eq, decide_eq_false_iff_not] at hcond
        obtain ⟨⟨hne, hall⟩, hnoyear⟩ := hcond
        constructor
        · intro hnil
          rw [hnil] at hne
          simp at hne
        · intro n hn
          obtain ⟨⟨-, -⟩, hmem⟩ := hall n hn
          exact ⟨hmem, by have := hnoyear n hn; omega⟩
      · exact absurd rfl hch
    · exact absurd rfl hch

/-- C1 witness: the guard theorem applied to a concrete year-bearing run. -/
theorem c1_superscript_year_guard_witness :
    (∃ n ∈ extractNums "2020", 1000 ≤ n) ∧
    processSupRun [(1, "A")] (dictMaxKey [(1, "A")]) "[1. Reference text]"
      { text := "2020", superscript := some true }
      = ({ text := "2020", superscript := some true }, 0) :=
  ⟨⟨2020, by decide, by decide⟩,
    (c1_superscript_year_guard [(1, "A")] "[1. Reference text]"
      { text := "2020", superscript := some true }).1 ⟨2020, by decide, by decide⟩⟩

/-- C2 counterexample: on the Lorem-ipsum scenario the rewritten body text
is not the claimed `"Lorem ipsum. — 1. Doe, J. (2020)."` — the leading
space of the em-dash format is stripped before the superscript run is
overwritten, so no space separates the sentence and the em dash. -/
theorem c2_emdash_scenario_counterexample :
    ((process_single_chapter
        [{ runs := [{ text := "Lorem ipsum." }, { text := "1", superscript := some true }] },
         { runs := [{ text := "Notes" }] },
         { runs := [{ text := "1. Doe, J. (2020)." }] }]
        "— 1. Reference text" false false).1.getD 0 { runs := [] }).text
      ≠ "Lorem ipsum. — 1. Doe, J. (2020)." := by
  decide

/-- C2 (amended): on the Lorem-ipsum scenario with the em-dash format the
body paragraph text becomes `"Lorem ipsum.— 1. Doe, J. (2020)."` (no space
before the em dash), the reference count and the replacement count are both
1, and the rewritten run's superscript flag is cleared to `None`
(inherit/baseline), not set to an explicit `False`. -/
theorem c2_emdash_scenario :
    process_single_chapter
        [{ runs := [{ text := "Lorem ipsum." }, { text := "1", superscript := some true }] },
         { runs := [{ text := "Notes" }] },
         { runs := [{ text := "1. Doe, J. (2020)." }] }]
        "— 1. Reference text" false false
      = ([{ runs := [{ text := "Lorem ipsum." }, { text := "— 1. Doe, J. (2020)." }] },
          { runs := [{ text := "Notes" }] },
          { runs := [{ text := "1. Doe, J. (2020)." }] }], 1, 1) := by
  decide

/-- C5: `[1-3]` with map {1 ↦ A, 2 ↦ B, 3 ↦ C} is replaced by the three
formatted references joined by `"; "`, counted as one change; `[1-9999]`
fails the range-expansion bound and the paragraph is returned completely
unchanged with zero changes. -/
theorem c5_range_expansion_scenario :
    (replace_citations_in_paragraph { runs := [{ text := "Intro [1-3] end." }] }
        [(1, "A"), (2, "B"), (3, "C")] "[1. Reference text]" false).1.text
      = "Intro " ++ String.intercalate "; "
          [format_reference 1 "A" "[1. Reference text]",
           format_reference 2 "B" "[1. Reference text]",
           format_reference 3 "C" "[1. Reference text]"] ++ " end." ∧
    (replace_citations_in_paragraph { runs := [{ text := "Intro [1-3] end." }] }
        [(1, "A"), (2, "B"), (3, "C")] "[1. Reference text]" false).2 = 1 ∧
    replace_citations_in_paragraph { runs := [{ text := "Intro [1-9999] end." }] }
        [(1, "A"), (2, "B"), (3, "C")] "[1. Reference text]" false
      = ({ runs := [{ text := "Intro [1-9999] end." }] }, 0) := by
  refine ⟨by decide, by decide, by decide⟩

/-- C6: when no paragraph matches a section heading, no sections are
detected and processing returns the paragraphs untouched with reference
count 0 and replacement count 0. -/
theorem c6_no_sections_noop (paras : List Paragraph) (style : String) (ap dn : Bool)
    (h : ∀ p ∈ paras, isNotesHeading p = false) :
    find_notes_sections paras = [] ∧
    process_single_chapter paras style ap dn = (paras, 0, 0) := by
  have hs := no_heading_no_sections paras h
  refine ⟨hs, ?_⟩
  rw [process_single_chapter, hs]
  rfl

/-- C6 witness: a one-paragraph document with no heading. -/
theorem c6_no_sections_noop_witness :
    (∀ p ∈ [({ runs := [{ text := "Plain body text [1]." }] } : Paragraph)],
        isNotesHeading p = false) ∧
    (find_notes_sections [({ runs := [{ text := "Plain body text [1]." }] } : Paragraph)] = [] ∧
     process_single_chapter [({ runs := [{ text := "Plain body text [1]." }] } : Paragraph)]
        "[1. Reference text]" false false
       = ([({ runs := [{ text := "Plain body text [1]." }] } : Paragraph)], 0, 0)) :=
  ⟨by decide,
    c6_no_sections_noop [{ runs := [{ text := "Plain body text [1]." }] }]
      "[1. Reference text]" false false (by decide)⟩

/-- C8: with paren mode off (the default), in the body text
`"See (1801–1876) for details [2]."` only the `[2]` marker is rewritten;
the parenthesized year range survives verbatim in the output. -/
theorem c8_paren_mode_off_scenario :
    (replace_citations_in_paragraph
        { runs := [{ text := "See (1801–1876) for details [2]." }] }
        [(2, "Smith, A.")] "[1. Reference text]" false).1.text
      = "See (1801–1876) for details  [2. Smith, A.]." ∧
    List.IsInfix "(1801–1876)".data
      ((replace_citations_in_paragraph
          { runs := [{ text := "See (1801–1876) for details [2]." }] }
          [(2, "Smith, A.")] "[1. Reference text]" false).1.text).data ∧
    (replace_citations_in_paragraph
        { runs := [{ text := "See (1801–1876) for details [2]." }] }
        [(2, "Smith, A.")] "[1. Reference text]" false).2 = 1 := by
  refine ⟨by decide, by decide, by decide⟩

/-- C10: number-range expansion always yields a strictly ascending list
(sorted, duplicates removed); consequently the marker `[3,1,3]` renders
reference 1 before reference 3, once each. -/
theorem c10_expansion_sorted :
    (∀ s : String, (expand_number_range s).Sorted (· < ·)) ∧
    (replace_citations_in_paragraph { runs := [{ text := "x [3,1,3] y" }] }
        [(1, "A"), (3, "C")] "[1. Reference text]" false).1.text
      = "x " ++ String.intercalate "; "
          [format_reference 1 "A" "[1. Reference text]",
           format_reference 3 "C" "[1. Reference text]"] ++ " y" := by
  constructor
  · intro s
    exact sorted_sortedDedup _
  · decide

/-- C10 witness: the sortedness component evaluated at a concrete marker
token string. -/
theorem c10_expansion_sorted_witness :
    (expand_number_range "3,1,3").Sorted (· < ·) :=
  c10_expansion_sorted.1 "3,1,3"

/-- C4: citation rewriting never modifies a paragraph whose index lies in a
detected section range (heading index up to the section end): that position
of the output paragraph list is identical to the input. -/
theorem c4_sections_untouched (paras : List Paragraph) (style : String)
    (ap : Bool) (i : Nat)
    (h : ∃ s ∈ find_notes_sections paras, s.1 ≤ i ∧ i < s.2.2) :
    (process_single_chapter paras style ap false).1.get? i = paras.get? i := by
  obtain ⟨s, hs, hi1, hi2⟩ := h
  have hne : (find_notes_sections paras).isEmpty = false := by
    cases hfs : find_notes_sections paras with
    | nil => rw [hfs] at hs; exact absurd hs (List.not_mem_nil s)
    | cons a l => rfl
  have hin : (find_notes_sections paras).any
      (fun s => decide (s.1 ≤ i) && decide (i < s.2.2)) = true :=
    List.any_eq_true.mpr ⟨s, hs, by simp [hi1, hi2]⟩
  rw [process_single_chapter]
  simp only [hne, Bool.false_eq_true, if_false]
  by_cases hr : ((find_notes_sections paras).foldl
      (fun acc s => dictUpdate acc (parse_references_advanced paras s.2.1 s.2.2)) []).isEmpty = true
  · simp only [hr, if_true]
  · simp only [hr, Bool.false_eq_true, if_false]
    rw [List.get?_map, List.get?_map, get?_enumFrom']
    cases hp : paras.get? i with
    | none => rfl
    | some p => simp [hin]

/-- C4 witness: the paragraph at the heading index of a concrete document
with a detected Notes section is untouched by processing. -/
theorem c4_sections_untouched_witness :
    (∃ s ∈ find_notes_sections
        [{ runs := [{ text := "Notes" }] }, { runs := [{ text := "1. A" }] }],
      s.1 ≤ 0 ∧ 0 < s.2.2) ∧
    (process_single_chapter
        [{ runs := [{ text := "Notes" }] }, { runs := [{ text := "1. A" }] }]
        "[1. Reference text]" false false).1.get? 0
      = [({ runs := [{ text := "Notes" }] } : Paragraph),
         { runs := [{ text := "1. A" }] }].get? 0 :=
  ⟨by decide,
    c4_sections_untouched
      [{ runs := [{ text := "Notes" }] }, { runs := [{ text := "1. A" }] }]
      "[1. Reference text]" false 0 (by decide)⟩

theorem rejoin_single (d : List Paragraph) :
    rejoin_chapters [d]
      = d.map (fun p => { style := p.style, runs := p.runs.map rejoinCopyRun }) := by
  rw [rejoin_chapters, rejoinAux, rejoinAux]
  simp

theorem paraAt_map (g : Paragraph → Paragraph) : ∀ (l : List Paragraph) (j : Nat),
    j < l.length → paraAt (l.map g) j = g (paraAt l j) := by
  intro l
  induction l with
  | nil => intro j hj; exact absurd hj (by simp)
  | cons p rest ih =>
      intro j hj
      cases j with
      | zero => rfl
      | succ j =>
          have hj' : j < rest.length := by simpa using hj
          simp only [List.map_cons, paraAt, List.getD_cons_succ] at ih ⊢
          exact ih j hj'

/-- C9: extracting a chapter and rejoining the one-element list reproduces,
position by position, the original paragraphs of the boundary's range: same
paragraph text, same style name, and runs with the same text, bold, italic,
underline, font-size and font-name values. -/
theorem c9_extract_rejoin_roundtrip (doc : List Paragraph) (s e : Nat) :
    (rejoin_chapters [create_chapter_document doc s e]).length
      = ((doc.drop s).take (e + 1 - s)).length ∧
    ∀ j, j < ((doc.drop s).take (e + 1 - s)).length →
      (paraAt (rejoin_chapters [create_chapter_document doc s e]) j).text
          = (paraAt ((doc.drop s).take (e + 1 - s)) j).text ∧
      (paraAt (rejoin_chapters [create_chapter_document doc s e]) j).style
          = (paraAt ((doc.drop s).take (e + 1 - s)) j).style ∧
      (paraAt (rejoin_chapters [create_chapter_document doc s e]) j).runs.map Run.text
          = (paraAt ((doc.drop s).take (e + 1 - s)) j).runs.map Run.text ∧
      (paraAt (rejoin_chapters [create_chapter_document doc s e]) j).runs.map Run.bold
          = (paraAt ((doc.drop s).take (e + 1 - s)) j).runs.map Run.bold ∧
      (paraAt (rejoin_chapters [create_chapter_document doc s e]) j).runs.map Run.italic
          = (paraAt ((doc.drop s).take (e + 1 - s)) j).runs.map Run.italic ∧
      (paraAt (rejoin_chapters [create_chapter_document doc s e]) j).runs.map Run.underline
          = (paraAt ((doc.drop s).take (e + 1 - s)) j).runs.map Run.underline ∧
      (paraAt (rejoin_chapters [create_chapter_document doc s e]) j).runs.map Run.fontSize
          = (paraAt ((doc.drop s).take (e + 1 - s)) j).runs.map Run.fontSize ∧
      (paraAt (rejoin_chapters [create_chapter_document doc s e]) j).runs.map Run.fontName
          = (paraAt ((doc.drop s).take (e + 1 - s)) j).runs.map Run.fontName := by
  have hre : rejoin_chapters [create_chapter_document doc s e]
      = ((doc.drop s).take (e + 1 - s)).map
          (fun p => { style := p.style,
                      runs := (p.runs.map extractCopyRun).map rejoinCopyRun }) := by
    rw [create_chapter_document, rejoin_single, List.map_map]
    rfl
  constructor
  · rw [hre, List.length_map]
  · intro j hj
    rw [hre, paraAt_map _ _ _ hj]
    cases paraAt ((doc.drop s).take (e + 1 - s)) j with
    | mk rs st =>
        refine ⟨?_, rfl, ?_, ?_, ?_, ?_, ?_, ?_⟩
        · show String.join (((rs.map extractCopyRun).map rejoinCopyRun).map Run.text)
            = String.join (rs.map Run.text)
          rw [List.map_map, List.map_map]
          rfl
        · show ((rs.map extractCopyRun).map rejoinCopyRun).map Run.text
            = rs.map Run.text
          rw [List.map_map, List.map_map]
          rfl
        · show ((rs.map extractCopyRun).map rejoinCopyRun).map Run.bold
            = rs.map Run.bold
          rw [List.map_map, List.map_map]
          rfl
        · show ((rs.map extractCopyRun).map rejoinCopyRun).map Run.italic
            = rs.map Run.italic
          rw [List.map_map, List.map_map]
          rfl
        · show ((rs.map extractCopyRun).map rejoinCopyRun).map Run.underline
            = rs.map Run.underline
          rw [List.map_map, List.map_map]
          rfl
        · show ((rs.map extractCopyRun).map rejoinCopyRun).map Run.fontSize
            = rs.map Run.fontSize
          rw [List.map_map, List.map_map]
          rfl
        · show ((rs.map extractCopyRun).map rejoinCopyRun).map Run.fontName
            = rs.map Run.fontName
          rw [List.map_map, List.map_map]
          rfl

theorem find?_range'_eq_some {p : Nat → Bool} : ∀ (len a i : Nat),
    a ≤ i → i < a + len → p i = true → (∀ j, a ≤ j → j < i → p j = false) →
    (List.range' a len).find? p = some i := by
  intro len
  induction len with
  | zero => intro a i h1 h2 _ _; omega
  | succ n ih =>
      intro a i h1 h2 hp hmin
      rw [List.range'_succ]
      by_cases hai : a = i
      · subst hai
        exact List.find?_cons_of_pos _ hp
      · rw [List.find?_cons_of_neg _ (by rw [hmin a le_rfl (by omega)]; simp)]
        exact ih (a + 1) i (by omega) (by omega) hp (fun j hj1 hj2 => hmin j (by omega) hj2)

theorem find?_range'_eq_none {p : Nat → Bool} : ∀ (len a : Nat),
    (∀ j, a ≤ j → j < a + len → p j = false) →
    (List.range' a len).find? p = none := by
  intro len
  induction len with
  | zero => intro a _; rfl
  | succ n ih =>
      intro a h
      rw [List.range'_succ]
      rw [List.find?_cons_of_neg _ (by rw [h a le_rfl (by omega)]; simp)]
      exact ih (a + 1) (fun j hj1 hj2 => h j (by omega) (by omega))

theorem drop_cons_facts {paras : List Paragraph} {i : Nat} {p : Paragraph}
    {rest : List Paragraph} (h : paras.drop i = p :: rest) :
    paraAt paras i = p ∧ paras.drop (i + 1) = rest ∧ i < paras.length := by
  have hlt : i < paras.length := by
    by_contra hge
    rw [List.drop_eq_nil_of_le (by omega)] at h
    exact List.noConfusion h
  refine ⟨?_, ?_, hlt⟩
  · have h0 : (paras.drop i).get? 0 = some p := by rw [h]; rfl
    rw [List.get?_drop] at h0
    rw [paraAt, List.getD_eq_getD_get?, Nat.add_zero] at *
    rw [h0]
    rfl
  · have := List.tail_drop paras i
    rw [h] at this
    exact this.symm

theorem fseAux_eq_amended (paras : List Paragraph) (start : Nat) :
    ∀ (l : List Paragraph) (i b : Nat),
      start ≤ i → i ≤ paras.length → l = paras.drop i →
      (b = 0 ∨ b = 1) →
      (b = 1 → start < i ∧ (trimList (paraAt paras (i - 1)).text.data).isEmpty = true) →
      (b = 0 → i = start ∨
        (start < i ∧ (trimList (paraAt paras (i - 1)).text.data).isEmpty = false)) →
      (∀ j, start ≤ j → j < i → sectionEndTrigger paras start j = false) →
      fseAux l i b = find_section_end_amended paras start := by
  intro l
  induction l with
  | nil =>
      intro i b hsi hil hl _ _ _ hnone
      have hieq : i = paras.length := by
        have := congrArg List.length hl
        simp [List.length_drop] at this
        omega
      subst hieq
      rw [fseAux, find_section_end_amended,
        find?_range'_eq_none _ _ (fun j hj1 hj2 => hnone j hj1 (by omega))]
  | cons p rest ih =>
      intro i b hsi hil hl hb hb1 hb0 hnone
      obtain ⟨hpi, hdrop, hlt⟩ := drop_cons_facts hl.symm
      rw [fseAux]
      by_cases hhead : isNotesHeading p
      · rw [if_pos hhead]
        rw [find_section_end_amended, find?_range'_eq_some (paras.length - start) start i hsi
          (by omega) (by rw [sectionEndTrigger, hpi, hhead]; rfl) hnone]
      · rw [if_neg hhead]
        by_cases hemp : (trimList p.text.data).isEmpty = true
        · rw [if_pos hemp]
          rcases hb with hb' | hb'
          · subst hb'
            rw [if_neg (by omega)]
            apply ih (i + 1) 1 (by omega) (by omega) hdrop.symm (Or.inr rfl)
            · intro _
              refine ⟨by omega, ?_⟩
              rw [Nat.add_sub_cancel, hpi]
              exact hemp
            · intro h01
              exact absurd h01 (by omega)
            · intro j hj1 hj2
              by_cases hji : j < i
              · exact hnone j hj1 hji
              · have hjeq : j = i := by omega
                subst hjeq
                rw [sectionEndTrigger, hpi]
                rcases hb0 rfl with hstart | ⟨-, hprev⟩
                · subst hstart
                  simp [hhead]
                · simp [hhead, hprev]
          · subst hb'
            rw [if_pos (by omega)]
            obtain ⟨hsl, hprev⟩ := hb1 rfl
            rw [find_section_end_amended, find?_range'_eq_some (paras.length - start) start i hsi
              (by omega) ?_ hnone]
            rw [sectionEndTrigger, hpi]
            simp [hsl, hemp, hprev]
        · rw [if_neg hemp]
          apply ih (i + 1) 0 (by omega) (by omega) hdrop.symm (Or.inl rfl)
          · intro h10
            exact absurd h10 (by omega)
          · intro _
            refine Or.inr ⟨by omega, ?_⟩
            rw [Nat.add_sub_cancel, hpi]
            simpa using hemp
          · intro j hj1 hj2
            by_cases hji : j < i
            · exact hnone j hj1 hji
            · have hjeq : j = i := by omega
              subst hjeq
              rw [sectionEndTrigger, hpi]
              simp [hhead, hemp]

/-- C3 (amended): the implemented section end is the first index at or
after `start` at which another section heading occurs or the second of two
consecutive empty paragraphs occurs, and otherwise the length of the
paragraph sequence; the paragraph style is never consulted. -/
theorem c3_section_end_rule (paras : List Paragraph) (start : Nat) :
    find_section_end paras start = find_section_end_amended paras start := by
  by_cases hs : start ≤ paras.length
  · rw [find_section_end, if_pos hs]
    exact fseAux_eq_amended paras start (paras.drop start) start 0 le_rfl hs rfl
      (Or.inl rfl) (fun h => absurd h (by omega)) (fun _ => Or.inl rfl)
      (fun j hj1 hj2 => absurd hj1 (by omega))
  · rw [find_section_end, if_neg hs, find_section_end_amended]
    have h0 : paras.length - start = 0 := by omega
    rw [h0]
    rfl

/-- C3 counterexample: the claim's end-of-section rule additionally stops
at a non-empty heading-styled paragraph, but the detector does not — on a
document whose Notes section is followed by a "Heading 1"-styled paragraph
the detector returns 3 (the sequence length) while the claimed rule gives
1. -/
theorem c3_section_end_counterexample :
    find_notes_sections
        [{ runs := [{ text := "Notes" }] },
         { runs := [{ text := "Chapter Two" }], style := "Heading 1" },
         { runs := [{ text := "1. A" }] }]
      = [(0, 1, 3)] ∧
    find_section_end
        [{ runs := [{ text := "Notes" }] },
         { runs := [{ text := "Chapter Two" }], style := "Heading 1" },
         { runs := [{ text := "1. A" }] }] 1
      ≠ find_section_end_claim
        [{ runs := [{ text := "Notes" }] },
         { runs := [{ text := "Chapter Two" }], style := "Heading 1" },
         { runs := [{ text := "1. A" }] }] 1 := by
  refine ⟨by decide, by decide⟩

/-- C9 witness: the round-trip theorem evaluated on a one-paragraph
document at position 0. -/
theorem c9_extract_rejoin_roundtrip_witness :
    0 < ((([{ runs := [{ text := "Hello", bold := some true, superscript := some true }],
              style := "Body" }] : List Paragraph).drop 0).take (0 + 1 - 0)).length ∧
    (paraAt (rejoin_chapters [create_chapter_document
        ([{ runs := [{ text := "Hello", bold := some true, superscript := some true }],
             style := "Body" }] : List Paragraph) 0 0]) 0).text
      = (paraAt ((([{ runs := [{ text := "Hello", bold := some true, superscript := some true }],
                      style := "Body" }] : List Paragraph).drop 0).take (0 + 1 - 0)) 0).text :=
  ⟨by decide,
    ((c9_extract_rejoin_roundtrip
        [{ runs := [{ text := "Hello", bold := some true, superscript := some true }],
           style := "Body" }] 0 0).2 0 (by decide)).1⟩

theorem mkBounds_length (maxLen : Nat) : ∀ (sel : List (Nat × String)) (total i : Nat),
    (mkBounds maxLen sel total i).length = sel.length := by
  intro sel
  induction sel with
  | nil => intro total i; rfl
  | cons x rest ih =>
      intro total i
      cases x with
      | mk idx tx => simp [mkBounds, ih]

theorem mkBounds_start (maxLen : Nat) : ∀ (sel : List (Nat × String)) (total i j : Nat),
    j < sel.length →
    ((mkBounds maxLen sel total i).getD j (0, 0, "")).1 = ((sel.getD j (0, "")).1 : Int) := by
  intro sel
  induction sel with
  | nil => intro total i j hj; exact absurd hj (by simp)
  | cons x rest ih =>
      intro total i j hj
      cases x with
      | mk idx tx =>
          cases j with
          | zero => rfl
          | succ j =>
              have hj' : j < rest.length := by simpa using hj
              simp only [mkBounds]
              simp only [List.getD_cons_succ]
              exact ih total (i + 1) j hj'

theorem mkBounds_end (maxLen : Nat) : ∀ (sel : List (Nat × String)) (total i j : Nat),
    j < sel.length →
    ((mkBounds maxLen sel total i).getD j (0, 0, "")).2.1
      = (if j + 1 < sel.length then ((sel.getD (j + 1) (0, "")).1 : Int) - 1
         else (total : Int) - 1) := by
  intro sel
  induction sel with
  | nil => intro total i j hj; exact absurd hj (by simp)
  | cons x rest ih =>
      intro total i j hj
      cases x with
      | mk idx tx =>
          cases j with
          | zero =>
              cases rest with
              | nil => rfl
              | cons y rest' =>
                  simp only [mkBounds]
                  simp only [List.getD_cons_zero, List.getD_cons_succ]
                  rw [if_pos (by simp)]
          | succ j =>
              have hj' : j < rest.length := by simpa using hj
              simp only [mkBounds]
              simp only [List.getD_cons_succ]
              rw [ih total (i + 1) j hj']
              by_cases hlt : j + 1 < rest.length
              · rw [if_pos hlt, if_pos (by simpa using hlt)]
              · rw [if_neg hlt, if_neg (by simpa using hlt)]

theorem mkBounds_title (maxLen : Nat) : ∀ (sel : List (Nat × String)) (total i j : Nat),
    j < sel.length →
    ((mkBounds maxLen sel total i).getD j (0, 0, "")).2.2
      = (if (slugTitle maxLen (sel.getD j (0, "")).2).data.isEmpty
         then "Chapter_" ++ toString (i + j + 1)
         else slugTitle maxLen (sel.getD j (0, "")).2) := by
  intro sel
  induction sel with
  | nil => intro total i j hj; exact absurd hj (by simp)
  | cons x rest ih =>
      intro total i j hj
      cases x with
      | mk idx tx =>
          cases j with
          | zero =>
              simp only [mkBounds]
              simp only [List.getD_cons_zero, Nat.add_zero]
          | succ j =>
              have hj' : j < rest.length := by simpa using hj
              simp only [mkBounds]
              simp only [List.getD_cons_succ]
              rw [ih total (i + 1) j hj']
              have harith : i + 1 + j + 1 = i + (j + 1) + 1 := by omega
              rw [harith]

theorem mkBounds_cover (maxLen : Nat) : ∀ (sel : List (Nat × String)) (total i : Nat)
    (K : Int), sel ≠ [] → ((sel.getD 0 (0, "")).1 : Int) ≤ K → K ≤ (total : Int) - 1 →
    ∃ b ∈ mkBounds maxLen sel total i, b.1 ≤ K ∧ K ≤ b.2.1 := by
  intro sel
  induction sel with
  | nil => intro total i K hne; exact absurd rfl hne
  | cons x rest ih =>
      intro total i K _ hK1 hK2
      cases x with
      | mk idx tx =>
          cases rest with
          | nil =>
              refine ⟨((idx : Int), (total : Int) - 1,
                if (slugTitle maxLen tx).data.isEmpty
                then "Chapter_" ++ toString (i + 1) else slugTitle maxLen tx), ?_, ?_, ?_⟩
              · simp only [mkBounds]
                exact List.mem_cons_self _ _
              · simpa using hK1
              · exact hK2
          | cons y rest' =>
              by_cases hK : K ≤ (y.1 : Int) - 1
              · refine ⟨((idx : Int), (y.1 : Int) - 1,
                  if (slugTitle maxLen tx).data.isEmpty
                  then "Chapter_" ++ toString (i + 1) else slugTitle maxLen tx), ?_, ?_, ?_⟩
                · simp only [mkBounds]
                  exact List.mem_cons_self _ _
                · simpa using hK1
                · exact hK
              · obtain ⟨b, hb, hb1, hb2⟩ := ih total (i + 1) K (by simp)
                  (by simp only [List.getD_cons_zero]; omega) hK2
                refine ⟨b, ?_, hb1, hb2⟩
                simp only [mkBounds]
                exact List.mem_cons_of_mem _ hb

theorem chain_fst_mono (sel : List (Nat × String))
    (h : List.Chain' (fun a b => a.1 < b.1) sel) :
    ∀ a b, a < b → b < sel.length → (sel.getD a (0, "")).1 < (sel.getD b (0, "")).1 := by
  haveI : IsTrans (Nat × String) (fun a b => a.1 < b.1) :=
    ⟨fun x y z h1 h2 => lt_trans h1 h2⟩
  have hp := List.chain'_iff_pairwise.mp h
  rw [List.pairwise_iff_get] at hp
  intro a b hab hb
  have hord := hp ⟨a, by omega⟩ ⟨b, hb⟩ (Fin.mk_lt_mk.mpr hab)
  rw [List.getD_eq_getD_get?, List.getD_eq_getD_get?,
    List.get?_eq_get (by omega : a < sel.length), List.get?_eq_get hb]
  simpa using hord

theorem sortByIdx_eq_self : ∀ (l : List (Nat × String)),
    List.Chain' (fun a b => a.1 < b.1) l → sortByIdx l = l := by
  intro l
  induction l with
  | nil => intro _; rfl
  | cons x rest ih =>
      intro h
      have hrest : sortByIdx rest = rest := ih (List.Chain'.tail h)
      show insertByIdx x (sortByIdx rest) = x :: rest
      rw [hrest]
      cases rest with
      | nil => rfl
      | cons y rest' =>
          rw [insertByIdx]
          rw [if_pos (le_of_lt (List.chain'_cons.mp h).1)]

theorem getD_mem_sel (sel : List (Nat × String)) (j : Nat) (h : j < sel.length) :
    sel.getD j (0, "") ∈ sel := by
  rw [List.getD_eq_getD_get?, List.get?_eq_get h, Option.getD_some]
  exact List.get_mem sel j h

/-- C7 counterexample: with the single confirmed start index 1 on a
3-paragraph document the produced boundary list is `[(1, 2, "X")]`, which
does not cover index 0 of `[0, P-1]` — coverage of the whole index range
fails whenever the first confirmed start is positive. -/
theorem c7_boundaries_counterexample :
    create_chapter_boundaries [(1, "X")] 3 = [(1, 2, "X")] ∧
    ¬ (∀ K : Int, 0 ≤ K → K ≤ (3 : Int) - 1 →
        ∃ b ∈ create_chapter_boundaries [(1, "X")] 3, b.1 ≤ K ∧ K ≤ b.2.1) := by
  constructor
  · decide
  · intro h
    obtain ⟨b, hb, h1, h2⟩ := h 0 le_rfl (by decide)
    have hb' : b = ((1 : Int), (2 : Int), "X") := by
      have he : create_chapter_boundaries [(1, "X")] 3 = [(1, 2, "X")] := by decide
      rw [he] at hb
      simpa using hb
    rw [hb'] at h1
    exact absurd h1 (by decide)

/-- C7 (amended): for a non-empty strictly ascending list of confirmed
chapter-start indices, all below the paragraph count P, boundary
construction yields exactly N boundaries; boundary j starts at start
index j and ends one before the next start index (P-1 for the last); each
boundary's start is at most its end; consecutive boundaries are contiguous;
boundaries never overlap; the covered indices are exactly the interval from
the first confirmed start (not 0) to P-1; and each title is the slug of the
heading text or a generated `Chapter_<n>` placeholder when the slug is
empty. -/
theorem c7_boundaries_invariants (selected : List (Nat × String)) (total : Nat)
    (hne : selected ≠ [])
    (hchain : List.Chain' (fun a b => a.1 < b.1) selected)
    (hlt : ∀ x ∈ selected, x.1 < total) :
    (create_chapter_boundaries selected total).length = selected.length ∧
    (∀ j, j < selected.length →
      ((create_chapter_boundaries selected total).getD j (0, 0, "")).1
          = ((selected.getD j (0, "")).1 : Int) ∧
      ((create_chapter_boundaries selected total).getD j (0, 0, "")).2.1
          = (if j + 1 < selected.length
             then ((selected.getD (j + 1) (0, "")).1 : Int) - 1
             else (total : Int) - 1) ∧
      ((create_chapter_boundaries selected total).getD j (0, 0, "")).1
          ≤ ((create_chapter_boundaries selected total).getD j (0, 0, "")).2.1 ∧
      ((create_chapter_boundaries selected total).getD j (0, 0, "")).2.2
          = (if (slugTitle 50 (selected.getD j (0, "")).2).data.isEmpty
             then "Chapter_" ++ toString (j + 1)
             else slugTitle 50 (selected.getD j (0, "")).2)) ∧
    (∀ j, j + 1 < selected.length →
      ((create_chapter_boundaries selected total).getD (j + 1) (0, 0, "")).1
        = ((create_chapter_boundaries selected total).getD j (0, 0, "")).2.1 + 1) ∧
    (∀ j k, j < k → k < selected.length →
      ((create_chapter_boundaries selected total).getD j (0, 0, "")).2.1
        < ((create_chapter_boundaries selected total).getD k (0, 0, "")).1) ∧
    (∀ K : Int, ((selected.getD 0 (0, "")).1 : Int) ≤ K → K ≤ (total : Int) - 1 →
      ∃ b ∈ create_chapter_boundaries selected total, b.1 ≤ K ∧ K ≤ b.2.1) := by
  have hie : selected.isEmpty = false := by
    cases selected with
    | nil => exact absurd rfl hne
    | cons a l => rfl
  have hcb : create_chapter_boundaries selected total = mkBounds 50 selected total 0 := by
    rw [create_chapter_boundaries, hie]
    rw [if_neg (by simp)]
    rw [sortByIdx_eq_self selected hchain]
  refine ⟨?_, ?_, ?_, ?_, ?_⟩
  · rw [hcb, mkBounds_length]
  · intro j hj
    refine ⟨?_, ?_, ?_, ?_⟩
    · rw [hcb, mkBounds_start 50 selected total 0 j hj]
    · rw [hcb, mkBounds_end 50 selected total 0 j hj]
    · rw [hcb, mkBounds_start 50 selected total 0 j hj,
        mkBounds_end 50 selected total 0 j hj]
      by_cases hlt2 : j + 1 < selected.length
      · rw [if_pos hlt2]
        have := chain_fst_mono selected hchain j (j + 1) (by omega) hlt2
        omega
      · rw [if_neg hlt2]
        have := hlt (selected.getD j (0, "")) (getD_mem_sel selected j hj)
        omega
    · rw [hcb, mkBounds_title 50 selected total 0 j hj]
      have h0 : 0 + j + 1 = j + 1 := by omega
      rw [h0]
  · intro j hj
    rw [hcb, mkBounds_start 50 selected total 0 (j + 1) hj,
      mkBounds_end 50 selected total 0 j (by omega), if_pos hj]
    omega
  · intro j k hjk hk
    rw [hcb, mkBounds_end 50 selected total 0 j (by omega),
      mkBounds_start 50 selected total 0 k hk, if_pos (by omega)]
    by_cases hjk1 : j + 1 = k
    · rw [hjk1]
      omega
    · have := chain_fst_mono selected hchain (j + 1) k (by omega) hk
      omega
  · intro K hK1 hK2
    rw [hcb]
    exact mkBounds_cover 50 selected total 0 K hne hK1 hK2

/-- C7 witness: the invariants theorem evaluated on two confirmed starts 0
and 2 on a 4-paragraph document. -/
theorem c7_boundaries_invariants_witness :
    ([((0 : Nat), "Intro"), (2, "Ch 2")] ≠ []) ∧
    List.Chain' (fun a b => a.1 < b.1) [((0 : Nat), "Intro"), (2, "Ch 2")] ∧
    (∀ x ∈ [((0 : Nat), "Intro"), (2, "Ch 2")], x.1 < 4) ∧
    (create_chapter_boundaries [(0, "Intro"), (2, "Ch 2")] 4).length = 2 :=
  ⟨by decide,
    by
      rw [List.chain'_cons]
      exact ⟨by decide, List.chain'_singleton _⟩,
    by decide,
    by
      have h := (c7_boundaries_invariants [(0, "Intro"), (2, "Ch 2")] 4 (by decide)
        (by rw [List.chain'_cons]; exact ⟨by decide, List.chain'_singleton _⟩)
        (by decide)).1
      simpa using h⟩
